import Mathlib

/-!
Verification of the finsaas backtesting engine core against its
natural-language specification.

The Python source is shallowly embedded:
* `Decimal` values are modelled as exact rationals (`ℚ`); the concrete
  inputs used in the theorems below stay well inside the 28-significant-digit
  window where Python's `Decimal` arithmetic is exact.
* `datetime` timestamps are modelled as integers.
* Python `None` inside a series buffer is modelled by `Option ℚ`
  (`none` = Python `None`), written `Val` below.
* fallible code returns `Except Err _`, with one error constructor per
  Python exception class that can escape the modelled functions.

Source files embedded: `core/series.py`, `core/context.py`,
`strategy/builtins/ta.py` (sma / rsi / ema / macd), `engine/order.py`,
`engine/commission.py`, `engine/slippage.py`, `engine/broker.py`,
`engine/portfolio.py`, `engine/loop.py`, `strategy/base.py`
(entry / exit / close_position), `optimization/parallel.py`.
-/

namespace FinSaaS

/-- Trade direction (`Side` in `core/types.py`). -/
inductive Side
| long
| short
deriving DecidableEq, Repr

/-- Order execution type (`OrderType` in `core/types.py`). -/
inductive OrderType
| market
| limit
| stop
| stopLimit
deriving DecidableEq, Repr

/-- Order action type (`OrderAction` in `core/types.py`). -/
inductive OrderAction
| entry
| exit
| close
deriving DecidableEq, Repr

/-- Order lifecycle status (`OrderStatus` in `core/types.py`). -/
inductive OrderStatus
| pending
| filled
| cancelled
| rejected
deriving DecidableEq, Repr

/-- Position status (`PositionStatus` in `core/types.py`). -/
inductive PositionStatus
| openPos
| closedPos
deriving DecidableEq, Repr

/-- A single OHLCV bar (`OHLCV` in `core/types.py`).  `open` is a Lean
keyword, hence the trailing underscore. -/
structure OHLCV where
  timestamp : Int
  open_ : ℚ
  high : ℚ
  low : ℚ
  close : ℚ
  volume : ℚ
deriving DecidableEq, Repr

/-- Exceptions that can escape the embedded functions. -/
inductive Err
| seriesIndexError
| insufficientDataError
| typeError
| decimalDivisionError
deriving DecidableEq, Repr

deriving instance DecidableEq for Except

/-- A buffer slot of a `Decimal` series: `none` is Python's `None`. -/
abbrev Val := Option ℚ

/-- `nz` from `core/series.py`, with the default replacement (zero). -/
def nz (v : Val) : ℚ := v.getD 0

/-- `Series` from `core/series.py`.  `buffer` is the committed deque,
newest first; `current` is the staged value (`none` = the `_SENTINEL`,
i.e. nothing staged); `maxBarsBack` is the deque bound. -/
structure Series where
  buffer : List Val
  maxBarsBack : Nat
  current : Option Val
deriving DecidableEq, Repr

/-- A freshly constructed series (`Series.__init__`). -/
def Series.mkFresh (maxBarsBack : Nat := 5000) : Series :=
  { buffer := [], maxBarsBack := maxBarsBack, current := none }

/-- Number of committed values (`Series.__len__`). -/
def Series.len (s : Series) : Nat := s.buffer.length

/-- The `current` property getter: staged value if present, else the most
recent committed value; raises `SeriesIndexError` on an empty unstaged
series. -/
def Series.currentVal (s : Series) : Except Err Val :=
  match s.current with
  | some v => .ok v
  | none =>
    match s.buffer with
    | b :: _ => .ok b
    | [] => .error .seriesIndexError

/-- The `current` property setter (`Series.current = v`). -/
def Series.setCurrent (s : Series) (v : Val) : Series :=
  { s with current := some v }

/-- `Series.commit`: promote the staged value into the buffer (with the
deque's `maxlen` eviction), forward-filling the last committed value, or
`None` on an empty buffer, when nothing is staged. -/
def Series.commit (s : Series) : Series :=
  let pushed : Val :=
    match s.current with
    | some v => v
    | none =>
      match s.buffer with
      | b :: _ => b
      | [] => none
  { s with buffer := (pushed :: s.buffer).take s.maxBarsBack, current := none }

/-- `Series.rollback`: discard the staged value. -/
def Series.rollback (s : Series) : Series :=
  { s with current := none }

/-- `Series._get_single` (the non-slice path of `__getitem__`): index 0 is
the staged value when present; otherwise indices shift onto the committed
buffer.  Negative indices raise `SeriesIndexError`, indices past the known
history raise `InsufficientDataError`. -/
def Series.get (s : Series) (index : Int) : Except Err Val :=
  match s.current with
  | some c =>
    if index = 0 then .ok c
    else
      let bufIndex := if index > 0 then index - 1 else index
      if bufIndex < 0 then .error .seriesIndexError
      else
        match s.buffer[bufIndex.toNat]? with
        | some v => .ok v
        | none => .error .insufficientDataError
  | none =>
    if index < 0 then .error .seriesIndexError
    else
      match s.buffer[index.toNat]? with
      | some v => .ok v
      | none => .error .insufficientDataError

/-- Stage and commit a whole list of plain rational values, in order
(each step: `s.current = v; s.commit()`). -/
def Series.commitValues (s : Series) (vs : List ℚ) : Series :=
  vs.foldl (fun acc v => (acc.setCurrent (some v)).commit) s

/-- Bar processing state (`BarState` in `core/types.py`). -/
inductive BarState
| new
| processing
| confirmed
deriving DecidableEq, Repr

/-- `BarContext` from `core/context.py`: the six built-in series plus the
user-series registry tail.  The full registry, in registration order, is
the six built-ins followed by `userSeries`.  The `time` built-in stores
`int(bar.timestamp.timestamp())`, modelled as the integer timestamp cast
into `ℚ`. -/
structure BarContext where
  barIndex : Int
  barState : BarState
  currentBar : Option OHLCV
  openS : Series
  highS : Series
  lowS : Series
  closeS : Series
  volumeS : Series
  timeS : Series
  userSeries : List Series
deriving Repr

/-- `BarContext.__init__` (symbol info and timeframe metadata omitted:
they never influence the series state). -/
def BarContext.mkFresh (maxBarsBack : Nat := 5000) : BarContext :=
  { barIndex := -1
    barState := .new
    currentBar := none
    openS := Series.mkFresh maxBarsBack
    highS := Series.mkFresh maxBarsBack
    lowS := Series.mkFresh maxBarsBack
    closeS := Series.mkFresh maxBarsBack
    volumeS := Series.mkFresh maxBarsBack
    timeS := Series.mkFresh maxBarsBack
    userSeries := [] }

/-- The series registry, in registration order (`_series_registry`). -/
def BarContext.registry (ctx : BarContext) : List Series :=
  ctx.openS :: ctx.highS :: ctx.lowS :: ctx.closeS :: ctx.volumeS ::
    ctx.timeS :: ctx.userSeries

/-- Map a function over every registered series, preserving the
registration structure. -/
def BarContext.mapRegistry (f : Series → Series) (ctx : BarContext) : BarContext :=
  { ctx with
    openS := f ctx.openS
    highS := f ctx.highS
    lowS := f ctx.lowS
    closeS := f ctx.closeS
    volumeS := f ctx.volumeS
    timeS := f ctx.timeS
    userSeries := ctx.userSeries.map f }

/-- `BarContext.update`: stage the bar's OHLCV values into the built-ins
and record the bar index. -/
def BarContext.update (ctx : BarContext) (bar : OHLCV) (barIndex : Int) : BarContext :=
  { ctx with
    currentBar := some bar
    barIndex := barIndex
    barState := .new
    openS := ctx.openS.setCurrent (some bar.open_)
    highS := ctx.highS.setCurrent (some bar.high)
    lowS := ctx.lowS.setCurrent (some bar.low)
    closeS := ctx.closeS.setCurrent (some bar.close)
    volumeS := ctx.volumeS.setCurrent (some bar.volume)
    timeS := ctx.timeS.setCurrent (some (bar.timestamp : ℚ)) }

/-- `BarContext.commit_all`: commit every registered series and mark the
bar confirmed. -/
def BarContext.commitAll (ctx : BarContext) : BarContext :=
  { BarContext.mapRegistry Series.commit ctx with barState := .confirmed }

/-- `BarContext.rollback_all`: roll back every registered series. -/
def BarContext.rollbackAll (ctx : BarContext) : BarContext :=
  BarContext.mapRegistry Series.rollback ctx

/-- The committed state of the whole context: every registered series'
buffer, in registration order. -/
def BarContext.buffers (ctx : BarContext) : List (List Val) :=
  ctx.registry.map Series.buffer

/-- One staging action a strategy can perform on the context during a bar:
set the current value of the `i`-th registered series (out-of-range
indices are ignored; they do not occur in the source). -/
def BarContext.stage (ctx : BarContext) (i : Nat) (v : Val) : BarContext :=
  match i with
  | 0 => { ctx with openS := ctx.openS.setCurrent v }
  | 1 => { ctx with highS := ctx.highS.setCurrent v }
  | 2 => { ctx with lowS := ctx.lowS.setCurrent v }
  | 3 => { ctx with closeS := ctx.closeS.setCurrent v }
  | 4 => { ctx with volumeS := ctx.volumeS.setCurrent v }
  | 5 => { ctx with timeS := ctx.timeS.setCurrent v }
  | n + 6 =>
    { ctx with userSeries :=
        ctx.userSeries.mapIdx (fun j s => if j = n then s.setCurrent v else s) }

/-- A sequence of staging actions (what an arbitrary `on_bar` body does to
the registered series through the public API). -/
def BarContext.applyStages (ctx : BarContext) (ops : List (Nat × Val)) : BarContext :=
  ops.foldl (fun acc op => acc.stage op.1 op.2) ctx

/-- The `for i in range(1, length)` accumulation loop of `sma` in
`strategy/builtins/ta.py`.  The counter is the number of remaining
iterations; `i` is the next history index.  Returns `none` when Python's
`except Exception` fires (the function then returns 0). -/
def smaLoop (source : Series) (i : Int) : Nat → ℚ → Option ℚ
  | 0, total => some total
  | n + 1, total =>
    match source.get i with
    | .error _ => none
    | .ok v => smaLoop source (i + 1) n (total + nz v)

/-- `sma` from `strategy/builtins/ta.py`.  `total` starts from the raw
`source.current`, which raises on an empty unstaged series and is a
`TypeError` operand when it is Python `None`; the in-loop `except`
swallows any error and yields the warmup value 0. -/
def sma (source : Series) (length : Int) : Except Err ℚ :=
  if (source.len : Int) < length - 1 then .ok 0
  else
    match source.currentVal with
    | .error e => .error e
    | .ok cv =>
      let iters := (length - 1).toNat
      match cv with
      | none =>
        if iters = 0 then .error .typeError
        else .ok 0
      | some t0 =>
        match smaLoop source 1 iters t0 with
        | none => .ok 0
        | some total =>
          if length = 0 then .error .decimalDivisionError
          else .ok (total / (length : ℚ))

/-- The `for i in range(length)` gains/losses loop of `rsi`: a failing
history access is skipped by the in-loop `except … continue`. -/
def rsiLoop (source : Series) (i : Int) : Nat → ℚ × ℚ → ℚ × ℚ
  | 0, acc => acc
  | n + 1, acc =>
    let acc' :=
      match source.get i, source.get (i + 1) with
      | .ok c, .ok p =>
        let ch := nz c - nz p
        if ch > 0 then (acc.1 + ch, acc.2) else (acc.1, acc.2 + |ch|)
      | _, _ => acc
    rsiLoop source (i + 1) n acc'

/-- `rsi` from `strategy/builtins/ta.py`: neutral 50 before `length`
committed bars exist, else 100·(1 − 1/(1+RS)) on the SMA of gains and
losses over the window. -/
def rsi (source : Series) (length : Int) : Except Err ℚ :=
  if (source.len : Int) < length then .ok 50
  else
    let acc := rsiLoop source 0 length.toNat (0, 0)
    if length = 0 then .error .decimalDivisionError
    else
      let avgGain := acc.1 / (length : ℚ)
      let avgLoss := acc.2 / (length : ℚ)
      if avgLoss = 0 then .ok 100
      else .ok (100 - 100 / (1 + avgGain / avgLoss))

/-- The base-case accumulation loop of `_ema_recursive` (sum and count of
the non-`na` values of the window). -/
def emaBaseLoop (source : Series) (i : Int) : Nat → ℚ × Nat → Except Err (ℚ × Nat)
  | 0, acc => .ok acc
  | n + 1, acc => do
    let v ← source.get i
    let acc' := if v.isSome then (acc.1 + v.getD 0, acc.2 + 1) else acc
    emaBaseLoop source (i + 1) n acc'

/-- The base case of `_ema_recursive`: an SMA seed over the window
starting at `offset`. -/
def emaSeed (source : Series) (length : Int) (offset : Int) : Except Err ℚ := do
  let iters := (min (offset + length) (source.len : Int) - offset).toNat
  let acc ← emaBaseLoop source offset iters (0, 0)
  return acc.1 / (max acc.2 1 : ℚ)

/-- `_ema_recursive` from `strategy/builtins/ta.py`, with the recursion
depth `max_depth − offset` carried as a structural fuel argument (the
fuel is zero exactly when `offset ≥ max_depth`, the source's first base
condition): recurse one bar deeper until `max_depth` or the end of
history, seed with an SMA there, then unwind
`alpha·src[offset] + (1−alpha)·prev`. -/
def emaRecursiveAux (source : Series) (length : Int) (alpha : ℚ) :
    Nat → Int → Except Err ℚ
  | 0, offset => emaSeed source length offset
  | fuel + 1, offset =>
    if offset ≥ (source.len : Int) then emaSeed source length offset
    else do
      let prev ← emaRecursiveAux source length alpha fuel (offset + 1)
      let v ← source.get offset
      return alpha * nz v + (1 - alpha) * prev

/-- `_ema_recursive` at `offset` with bound `max_depth`. -/
def emaRecursive (source : Series) (length : Int) (alpha : ℚ)
    (offset maxDepth : Int) : Except Err ℚ :=
  emaRecursiveAux source length alpha (maxDepth - offset).toNat offset

/-- `ema` from `strategy/builtins/ta.py`.  Returns a `Val` because the
first branch returns the raw staged value, which can be Python `None`.
`alpha = 2/(length+1)` raises for `length = -1` (Decimal zero division),
before the warmup branch is reached. -/
def ema (source : Series) (length : Int) : Except Err Val :=
  if source.len < 1 then do
    let c ← source.currentVal
    return c
  else if length = -1 then .error .decimalDivisionError
  else if (source.len : Int) < length then do
    let r ← sma source (min length ((source.len : Int) + 1))
    return some r
  else
    let alpha := 2 / ((length : ℚ) + 1)
    do
      let prev ← emaRecursive source length alpha 1 (min (length * 3) (source.len : Int))
      let c ← source.currentVal
      match c with
      | none => .error .typeError
      | some cq => return some (alpha * cq + (1 - alpha) * prev)

/-- `macd` from `strategy/builtins/ta.py`: `(macd_line, signal_line,
histogram)`.  The source sets the signal line to the current MACD value
(`signal_line = macd_line`), not to an EMA of the MACD series.
Subtracting a Python `None` EMA raises `TypeError`. -/
def macd (source : Series) (fastLength slowLength signalLength : Int) :
    Except Err (ℚ × ℚ × ℚ) := do
  let fe ← ema source fastLength
  let se ← ema source slowLength
  match fe, se with
  | some f, some s =>
    let macdLine := f - s
    let signalLine := macdLine
    let histogram := macdLine - signalLine
    return (macdLine, signalLine, histogram)
  | _, _ => .error .typeError

/-- `Order` from `engine/order.py`.  The run-scoped unique uuid token is
modelled as a natural number. -/
structure Order where
  id : Nat
  action : OrderAction := .entry
  side : Side := .long
  orderType : OrderType := .market
  quantity : ℚ := 0
  limitPrice : Option ℚ := none
  stopPrice : Option ℚ := none
  status : OrderStatus := .pending
  tag : String := ""
  createdBar : Int := -1
  createdAt : Option Int := none
  filledAt : Option Int := none
  fillPrice : Option ℚ := none
  commission : ℚ := 0
  slippage : ℚ := 0
deriving DecidableEq, Repr

/-- `Fill` from `engine/order.py`. -/
structure Fill where
  orderId : Nat
  side : Side
  price : ℚ
  quantity : ℚ
  commission : ℚ
  slippage : ℚ
  timestamp : Int
  tag : String := ""
deriving DecidableEq, Repr

/-- `Position` from `engine/order.py`. -/
structure Position where
  side : Side
  entryPrice : ℚ
  quantity : ℚ
  entryTime : Int
  entryBar : Int
  tag : String := ""
  status : PositionStatus := .openPos
  exitPrice : Option ℚ := none
  exitTime : Option Int := none
  exitBar : Option Int := none
  exitTag : String := ""
  commissionEntry : ℚ := 0
  commissionExit : ℚ := 0
deriving DecidableEq, Repr

/-- `Position.unrealized_pnl`. -/
def Position.unrealizedPnl (p : Position) (currentPrice : ℚ) : ℚ :=
  if p.side = .long then (currentPrice - p.entryPrice) * p.quantity
  else (p.entryPrice - currentPrice) * p.quantity

/-- `Position.close`: record the exit data and mark the position closed
(the Python method additionally returns the realized P&L, which callers
only log). -/
def Position.close (p : Position) (exitPrice : ℚ) (exitTime : Int)
    (exitBar : Int) (exitTag : String) (commission : ℚ) : Position :=
  { p with
    exitPrice := some exitPrice
    exitTime := some exitTime
    exitBar := some exitBar
    exitTag := exitTag
    commissionExit := commission
    status := .closedPos }

/-- `Position.pnl`: realized P&L, available once closed. -/
def Position.pnl (p : Position) : Option ℚ :=
  match p.exitPrice with
  | none => none
  | some xp =>
    let gross :=
      if p.side = .long then (xp - p.entryPrice) * p.quantity
      else (p.entryPrice - xp) * p.quantity
    some (gross - p.commissionEntry - p.commissionExit)

/-- `Position.pnl_pct`. -/
def Position.pnlPct (p : Position) : Option ℚ :=
  match p.pnl with
  | none => none
  | some pl =>
    let costBasis := p.entryPrice * p.quantity
    if costBasis = 0 then some 0 else some (pl / costBasis * 100)

/-- `Position.bars_held`. -/
def Position.barsHeld (p : Position) : Option Int :=
  p.exitBar.map (fun xb => xb - p.entryBar)

/-- `TradeResult` from `core/types.py`. -/
structure TradeResult where
  entryTime : Int
  exitTime : Int
  side : Side
  entryPrice : ℚ
  exitPrice : ℚ
  quantity : ℚ
  pnl : ℚ
  pnlPct : ℚ
  commission : ℚ
  barsHeld : Int
  entryTag : String := ""
  exitTag : String := ""
deriving DecidableEq, Repr

/-- The closed set of commission models (`engine/commission.py`). -/
inductive CommissionModel
| percentage (rate : ℚ)
| fixed (amount : ℚ)
| tiered (tiers : List (ℚ × ℚ))
| zero
deriving DecidableEq, Repr

/-- `CommissionModel.calculate` for each model.  The tiered model sorts
its tiers ascending by threshold at construction and scans them from the
highest threshold down. -/
def CommissionModel.calculate : CommissionModel → ℚ → ℚ → ℚ
  | .percentage rate, price, quantity => price * quantity * rate
  | .fixed amount, _, _ => amount
  | .tiered tiers, price, quantity =>
    let value := price * quantity
    let sortedTiers := tiers.mergeSort (fun a b => decide (a.1 ≤ b.1))
    match sortedTiers.reverse.find? (fun t => decide (value ≥ t.1)) with
    | some t => value * t.2
    | none =>
      match sortedTiers with
      | t :: _ => value * t.2
      | [] => 0
  | .zero, _, _ => 0

/-- The closed set of slippage models (`engine/slippage.py`). -/
inductive SlippageModel
| percentage (rate : ℚ)
| fixed (points : ℚ)
| zero
deriving DecidableEq, Repr

/-- `SlippageModel.calculate`: buys (effective LONG fills) pay up,
sells receive less. -/
def SlippageModel.calculate : SlippageModel → ℚ → Side → ℚ
  | .percentage rate, price, side =>
    if side = .long then price + price * rate else price - price * rate
  | .fixed points, price, side =>
    if side = .long then price + points else price - points
  | .zero, price, _ => price

/-- `SimulatedBroker._check_limit`. -/
def checkLimit (order : Order) (bar : OHLCV) : Option ℚ :=
  match order.limitPrice with
  | none => none
  | some lp =>
    if order.side = .long ∨ order.action = .exit ∨ order.action = .close then
      if order.action = .entry ∧ order.side = .long then
        if bar.low ≤ lp then some lp else none
      else if (order.action = .exit ∨ order.action = .close) ∧ order.side = .long then
        if bar.high ≥ lp then some lp else none
      else if order.action = .entry ∧ order.side = .short then
        if bar.high ≥ lp then some lp else none
      else if (order.action = .exit ∨ order.action = .close) ∧ order.side = .short then
        if bar.low ≤ lp then some lp else none
      else none
    else if order.side = .short then
      if bar.high ≥ lp then some lp else none
    else none

/-- `SimulatedBroker._check_stop`. -/
def checkStop (order : Order) (bar : OHLCV) : Option ℚ :=
  match order.stopPrice with
  | none => none
  | some sp =>
    if order.side = .long ∧ order.action = .entry then
      if bar.high ≥ sp then some (max bar.open_ sp) else none
    else if order.side = .short ∧ order.action = .entry then
      if bar.low ≤ sp then some (min bar.open_ sp) else none
    else if order.action = .exit ∨ order.action = .close then
      if order.side = .long then
        if bar.low ≤ sp then some (min bar.open_ sp) else none
      else
        if bar.high ≥ sp then some (max bar.open_ sp) else none
    else none

/-- `SimulatedBroker._check_stop_limit`: stop condition first, then the
limit rule. -/
def checkStopLimit (order : Order) (bar : OHLCV) : Option ℚ :=
  if (checkStop order bar).isSome ∧ order.limitPrice.isSome then
    checkLimit order bar
  else none

/-- `SimulatedBroker._try_fill` (the unused `bar_index` parameter of the
Python method is dropped): price per order type, effective fill side for
exits, slippage only on MARKET and STOP fills, then commission. -/
def tryFill (commissionModel : CommissionModel) (slippageModel : SlippageModel)
    (order : Order) (bar : OHLCV) : Option Fill :=
  let fillPrice? : Option ℚ :=
    match order.orderType with
    | .market => some bar.open_
    | .limit => checkLimit order bar
    | .stop => checkStop order bar
    | .stopLimit => checkStopLimit order bar
  match fillPrice? with
  | none => none
  | some fp0 =>
    let fillSide :=
      if order.action = .exit ∨ order.action = .close then
        (if order.side = .long then Side.short else Side.long)
      else order.side
    let adjusted :=
      if order.orderType = .market ∨ order.orderType = .stop then
        slippageModel.calculate fp0 fillSide
      else fp0
    let slippageAmount :=
      if order.orderType = .market ∨ order.orderType = .stop then
        |adjusted - fp0|
      else 0
    let commission := commissionModel.calculate adjusted order.quantity
    some { orderId := order.id, side := order.side, price := adjusted,
           quantity := order.quantity, commission := commission,
           slippage := slippageAmount, timestamp := bar.timestamp,
           tag := order.tag }

/-- `SimulatedBroker`: the commission and slippage models plus the FIFO
queue of pending orders. -/
structure SimulatedBroker where
  commissionModel : CommissionModel
  slippageModel : SlippageModel
  pendingOrders : List Order
deriving Repr

/-- `SimulatedBroker.submit_order`. -/
def SimulatedBroker.submitOrder (b : SimulatedBroker) (order : Order) : SimulatedBroker :=
  { b with pendingOrders := b.pendingOrders ++ [order] }

/-- `SimulatedBroker.process_bar`: match every pending order against the
bar in queue order; filled orders leave the queue with their status, fill
time, fill price, commission and slippage recorded.  Each fill is
returned paired with the order that produced it (the Python method
returns the fills; the order objects are mutated in place). -/
def SimulatedBroker.processBar (b : SimulatedBroker) (bar : OHLCV) :
    List (Order × Fill) × SimulatedBroker :=
  let res := b.pendingOrders.foldl
    (fun (acc : List (Order × Fill) × List Order) order =>
      match tryFill b.commissionModel b.slippageModel order bar with
      | some fill =>
        let filled := { order with
          status := OrderStatus.filled
          filledAt := some bar.timestamp
          fillPrice := some fill.price
          commission := fill.commission
          slippage := fill.slippage }
        (acc.1 ++ [(filled, fill)], acc.2)
      | none => (acc.1, acc.2 ++ [order]))
    ([], [])
  (res.1, { b with pendingOrders := res.2 })

/-- Python `dict` lookup, on the insertion-ordered association-list model
of a dict (keys are unique in every state the engine constructs). -/
def dictFind {κ α : Type} [DecidableEq κ] (l : List (κ × α)) (k : κ) : Option α :=
  (l.find? (fun e => decide (e.1 = k))).map (fun e => e.2)

/-- Python `dict` assignment: replace in place when the key exists
(keeping its position), else append. -/
def dictInsert {κ α : Type} [DecidableEq κ] (l : List (κ × α)) (k : κ) (v : α) :
    List (κ × α) :=
  if l.any (fun e => decide (e.1 = k)) then
    l.map (fun e => if e.1 = k then (k, v) else e)
  else l ++ [(k, v)]

/-- Python `dict` key removal (`pop`/`del`); with unique keys, filtering
every entry with the key is removal of the single entry. -/
def dictErase {κ α : Type} [DecidableEq κ] (l : List (κ × α)) (k : κ) : List (κ × α) :=
  l.filter (fun e => decide (e.1 ≠ k))

/-- `EquityPoint` from `engine/portfolio.py`. -/
structure EquityPoint where
  barIndex : Int
  timestamp : Int
  equity : ℚ
  cash : ℚ
  positionValue : ℚ
  drawdown : ℚ := 0
deriving DecidableEq, Repr

/-- `Portfolio` from `engine/portfolio.py`.  `positions` models the
insertion-ordered `tag → Position` dict. -/
structure Portfolio where
  initialCapital : ℚ
  cash : ℚ
  positions : List (String × Position)
  closedPositions : List Position
  equityCurve : List EquityPoint
  peakEquity : ℚ
  tradeResults : List TradeResult
deriving Repr

/-- `Portfolio.__init__`. -/
def Portfolio.mkFresh (initialCapital : ℚ := 10000) : Portfolio :=
  { initialCapital := initialCapital
    cash := initialCapital
    positions := []
    closedPositions := []
    equityCurve := []
    peakEquity := initialCapital
    tradeResults := [] }

/-- `Portfolio.get_position`. -/
def Portfolio.getPosition (p : Portfolio) (tag : String) : Option Position :=
  dictFind p.positions tag

/-- `Portfolio._force_close`: pop the tagged position, close it at the
given price, settle cash and record the closed position and its
`TradeResult`.  (The pop cannot miss at any call site; a missing tag
leaves the portfolio unchanged.) -/
def Portfolio.forceClose (p : Portfolio) (tag : String) (price : ℚ)
    (timestamp : Int) (barIndex : Int) (commission : ℚ)
    (exitTag : String := "") : Portfolio :=
  match dictFind p.positions tag with
  | none => p
  | some position =>
    let closed := position.close price timestamp barIndex exitTag commission
    let cash' :=
      if position.side = .long then p.cash + (price * position.quantity - commission)
      else p.cash - (price * position.quantity + commission)
    let trade : TradeResult :=
      { entryTime := position.entryTime
        exitTime := timestamp
        side := position.side
        entryPrice := position.entryPrice
        exitPrice := price
        quantity := position.quantity
        pnl := closed.pnl.getD 0
        pnlPct := closed.pnlPct.getD 0
        commission := position.commissionEntry + closed.commissionExit
        barsHeld := closed.barsHeld.getD 0
        entryTag := tag
        exitTag := exitTag }
    { p with
      positions := dictErase p.positions tag
      cash := cash'
      closedPositions := p.closedPositions ++ [closed]
      tradeResults := p.tradeResults ++ [trade] }

/-- `Portfolio._open_position`: a same-side duplicate entry is warned and
ignored; an opposite-side entry first force-closes the existing position
at the fill price; then the new position is opened and cash settled. -/
def Portfolio.openPosition (p : Portfolio) (fill : Fill) (barIndex : Int)
    (tag : String) : Portfolio :=
  let prepared : Option Portfolio :=
    match dictFind p.positions tag with
    | some existing =>
      if existing.side ≠ fill.side then
        some (p.forceClose tag fill.price fill.timestamp barIndex fill.commission)
      else none
    | none => some p
  match prepared with
  | none => p
  | some p1 =>
    let cost := fill.price * fill.quantity
    let cash' :=
      if fill.side = .long then p1.cash - (cost + fill.commission)
      else p1.cash + (cost - fill.commission)
    let position : Position :=
      { side := fill.side
        entryPrice := fill.price
        quantity := fill.quantity
        entryTime := fill.timestamp
        entryBar := barIndex
        tag := tag
        commissionEntry := fill.commission }
    { p1 with cash := cash', positions := dictInsert p1.positions tag position }

/-- `Portfolio._close_position`: warn and ignore when the tag has no open
position; otherwise force-close at the fill's price with the fill's tag
as exit tag. -/
def Portfolio.closePosition (p : Portfolio) (fill : Fill) (barIndex : Int)
    (tag : String) : Portfolio :=
  match dictFind p.positions tag with
  | none => p
  | some _ =>
    p.forceClose tag fill.price fill.timestamp barIndex fill.commission fill.tag

/-- `Portfolio.process_fill`. -/
def Portfolio.processFill (p : Portfolio) (fill : Fill) (action : OrderAction)
    (barIndex : Int) : Portfolio :=
  let tag := if fill.tag = "" then "default" else fill.tag
  match action with
  | .entry => p.openPosition fill barIndex tag
  | .exit => p.closePosition fill barIndex tag
  | .close => p.closePosition fill barIndex tag

/-- `Portfolio._position_value`. -/
def Portfolio.positionValue (p : Portfolio) (currentPrice : ℚ) : ℚ :=
  p.positions.foldl
    (fun acc e =>
      if e.2.side = .long then acc + currentPrice * e.2.quantity
      else acc + (e.2.entryPrice * e.2.quantity + e.2.unrealizedPnl currentPrice))
    0

/-- `Portfolio.equity`. -/
def Portfolio.equity (p : Portfolio) (currentPrice : ℚ) : ℚ :=
  p.cash + p.positionValue currentPrice

/-- `Portfolio.record_equity`. -/
def Portfolio.recordEquity (p : Portfolio) (bar : OHLCV) (barIndex : Int) : Portfolio :=
  let posValue := p.positionValue bar.close
  let totalEquity := p.cash + posValue
  let peak := if totalEquity > p.peakEquity then totalEquity else p.peakEquity
  let drawdown := if peak > 0 then (peak - totalEquity) / peak else 0
  { p with
    peakEquity := peak
    equityCurve := p.equityCurve ++
      [{ barIndex := barIndex, timestamp := bar.timestamp, equity := totalEquity,
         cash := p.cash, positionValue := posValue, drawdown := drawdown }] }

/-- `Portfolio.close_all_positions`: snapshot the open tags, then
force-close each at the given price with zero commission and exit tag
`"backtest_end"`. -/
def Portfolio.closeAllPositions (p : Portfolio) (price : ℚ) (timestamp : Int)
    (barIndex : Int) : Portfolio :=
  (p.positions.map Prod.fst).foldl
    (fun acc tag => acc.forceClose tag price timestamp barIndex 0 "backtest_end") p

/-- The mutable state owned by `EventLoop` (`engine/loop.py`): context,
broker, portfolio, the per-bar queue of strategy-emitted orders, and the
order-id → action map. -/
structure LoopState where
  context : BarContext
  broker : SimulatedBroker
  portfolio : Portfolio
  orderQueue : List (Order × OrderAction)
  actionMap : List (Nat × OrderAction)
deriving Repr

/-- `EventLoop.__init__`. -/
def LoopState.mkFresh (initialCapital : ℚ := 10000)
    (commissionModel : CommissionModel := .percentage (1 / 1000))
    (slippageModel : SlippageModel := .percentage (5 / 10000))
    (maxBarsBack : Nat := 5000) : LoopState :=
  { context := BarContext.mkFresh maxBarsBack
    broker := { commissionModel := commissionModel,
                slippageModel := slippageModel, pendingOrders := [] }
    portfolio := Portfolio.mkFresh initialCapital
    orderQueue := []
    actionMap := [] }

/-- A strategy, abstracted for the loop: `on_bar` reads the context and
the portfolio, updates its own state `σ`, stages values into registered
series (through the public `Series.current` setter, modelled as
`BarContext.stage` indices), and emits order requests (its
`loop.submit_order` calls, in call order).  This is everything a
non-raising `Strategy.on_bar` can do to the engine state. -/
structure StrategySpec (σ : Type) where
  onBar : σ → BarContext → Portfolio → σ × List (Nat × Val) × List (Order × OrderAction)

/-- `EventLoop._process_bar`: the six pipeline steps, in source order.
Returns the new state together with the fills matched on this bar, each
paired with the order that produced it. -/
def processBarStep {σ : Type} (strat : StrategySpec σ) (bar : OHLCV) (barIndex : Nat)
    (st : LoopState × σ) : (LoopState × σ) × List (Order × Fill) :=
  let (ls, ss) := st
  -- Step 1: commit all series from the previous bar
  let ctx1 := if barIndex > 0 then ls.context.commitAll else ls.context
  -- Step 2: update context with the new bar
  let ctx2 := ctx1.update bar (barIndex : Int)
  -- Step 3: process pending orders (queued on previous bars)
  let (matched, broker1) := ls.broker.processBar bar
  let applied := matched.foldl
    (fun (acc : Portfolio × List (Nat × OrderAction)) of =>
      let action := (dictFind acc.2 of.2.orderId).getD OrderAction.entry
      (acc.1.processFill of.2 action (barIndex : Int), dictErase acc.2 of.2.orderId))
    (ls.portfolio, ls.actionMap)
  -- Step 4: strategy.on_bar
  let (ss', stages, requests) := strat.onBar ss ctx2 applied.1
  let ctx3 := ctx2.applyStages stages
  -- Step 5: send queued orders to the broker
  let submitted := requests.foldl
    (fun (acc : SimulatedBroker × List (Nat × OrderAction)) r =>
      let order := { r.1 with createdBar := (barIndex : Int),
                              createdAt := some bar.timestamp }
      (acc.1.submitOrder order, dictInsert acc.2 order.id r.2))
    (broker1, applied.2)
  -- Step 6: record equity
  let portfolio2 := applied.1.recordEquity bar (barIndex : Int)
  (({ context := ctx3, broker := submitted.1, portfolio := portfolio2,
      orderQueue := [], actionMap := submitted.2 }, ss'),
   matched)

/-- The `for bar_index, bar in enumerate(bars)` iteration of
`EventLoop.run`, with the running index made explicit; every fill is
accumulated paired with the index of the bar it was matched against. -/
def runBarsFrom {σ : Type} (strat : StrategySpec σ) (idx : Nat)
    (st : LoopState × σ) (trace : List (Nat × Order × Fill)) :
    List OHLCV → (LoopState × σ) × List (Nat × Order × Fill)
  | [] => (st, trace)
  | bar :: rest =>
    let (st', fills) := processBarStep strat bar idx st
    runBarsFrom strat (idx + 1) st'
      (trace ++ fills.map (fun of => (idx, of.1, of.2))) rest

/-- The bar iteration of `EventLoop.run`, from bar index 0. -/
def runBars {σ : Type} (strat : StrategySpec σ) (bars : List OHLCV)
    (st : LoopState × σ) : (LoopState × σ) × List (Nat × Order × Fill) :=
  runBarsFrom strat 0 st [] bars

/-- `EventLoop.run`: iterate the bars, then close every still-open
position at the last bar's close (when any bar exists). -/
def run {σ : Type} (strat : StrategySpec σ) (bars : List OHLCV)
    (st : LoopState × σ) : (LoopState × σ) × List (Nat × Order × Fill) :=
  let (stMid, trace) := runBars strat bars st
  match bars.getLast? with
  | none => (stMid, trace)
  | some lastBar =>
    let pf := stMid.1.portfolio.closeAllPositions lastBar.close lastBar.timestamp
      ((bars.length : Int) - 1)
    (({ stMid.1 with portfolio := pf }, stMid.2), trace)

/-- Order-type selection shared by `Strategy.entry` and `Strategy.exit`
(`strategy/base.py`): stop-limit when both prices given, else limit, else
stop, else market. -/
def orderTypeOf (limit stop : Option ℚ) : OrderType :=
  if limit.isSome ∧ stop.isSome then .stopLimit
  else if limit.isSome then .limit
  else if stop.isSome then .stop
  else .market

/-- `Strategy.entry` from `strategy/base.py`, acting on the loop state the
strategy is bound to; `oid` is the uuid the constructed `Order` receives.
With `qty` absent the size is `(cash / close) · 99 / 100` when the close
is positive, else 0; comparing a Python `None` close with 0 raises. -/
def Strategy.entry (st : LoopState) (oid : Nat) (tag : String) (side : Side)
    (qty limit stop : Option ℚ) : Except Err LoopState := do
  let q ← match qty with
    | some q0 => pure q0
    | none =>
      match st.context.closeS.currentVal with
      | .error e => Except.error e
      | .ok none => Except.error .typeError
      | .ok (some currentPrice) =>
        if currentPrice > 0 then
          pure (st.portfolio.cash / currentPrice * 99 / 100)
        else
          pure 0
  let order : Order :=
    { id := oid, action := .entry, side := side, orderType := orderTypeOf limit stop,
      quantity := q, limitPrice := limit, stopPrice := stop, tag := tag }
  return { st with orderQueue := st.orderQueue ++ [(order, OrderAction.entry)] }

/-- `Strategy.exit` from `strategy/base.py`: look up the position under
`from_entry or tag`; if there is none, return without emitting anything;
otherwise queue an EXIT order for the position's side/quantity. -/
def Strategy.exitOrder (st : LoopState) (oid : Nat) (tag : String)
    (fromEntry : String := "") (qty limit stop : Option ℚ := none) : LoopState :=
  let key := if fromEntry = "" then tag else fromEntry
  match st.portfolio.getPosition key with
  | none => st
  | some position =>
    let order : Order :=
      { id := oid, action := .exit, side := position.side,
        orderType := orderTypeOf limit stop,
        quantity := qty.getD position.quantity,
        limitPrice := limit, stopPrice := stop, tag := key }
    { st with orderQueue := st.orderQueue ++ [(order, OrderAction.exit)] }

/-- `Strategy.close_position` from `strategy/base.py`: market CLOSE of the
tagged position, or a silent no-op when the tag is vacant. -/
def Strategy.closePosition (st : LoopState) (oid : Nat) (tag : String) : LoopState :=
  match st.portfolio.getPosition tag with
  | none => st
  | some position =>
    let order : Order :=
      { id := oid, action := .close, side := position.side,
        orderType := .market, quantity := position.quantity, tag := tag }
    { st with orderQueue := st.orderQueue ++ [(order, OrderAction.close)] }

/-- Python `Decimal` values including the signed infinities the spec
names as failure sentinels. -/
inductive Dec
| val (q : ℚ)
| posInf
| negInf
deriving DecidableEq, Repr

/-- `TrialResult` from `optimization/result.py` (the `metrics` dict is
omitted: the modelled code path never reads it). -/
structure TrialResult (π : Type) where
  trialIndex : Nat
  parameters : π
  objectiveValue : Dec
  runHash : String := ""
deriving DecidableEq, Repr

/-- The parallel branch of `run_parallel_trials`
(`optimization/parallel.py`).  Every trial is submitted to the pool;
`as_completed` yields the futures in an arbitrary order, modelled by the
`completionOrder` permutation of the trial indices.  A trial whose
execution raises is recorded with the sentinel objective
`Decimal("-999")`; finally the collected results are sorted (stably) by
`trial_index`. -/
def runParallelTrials {π : Type} (trialFn : π → Nat → Except Unit (TrialResult π))
    (paramSets : List π) (completionOrder : List Nat) : List (TrialResult π) :=
  let results := completionOrder.filterMap
    (fun idx =>
      (paramSets.get? idx).map
        (fun params =>
          match trialFn params idx with
          | .ok r => r
          | .error _ =>
            { trialIndex := idx, parameters := params,
              objectiveValue := Dec.val (-999) }))
  results.mergeSort (fun a b => decide (a.trialIndex ≤ b.trialIndex))

/-! ## Series round-trip (C2) -/

lemma Series.commit_setCurrent (s : Series) (v : Val)
    (h : s.buffer.length + 1 ≤ s.maxBarsBack) :
    (s.setCurrent v).commit =
      { s with buffer := v :: s.buffer, current := none } := by
  simp only [Series.setCurrent, Series.commit]
  congr 1
  exact List.take_of_length_le (by simpa using h)

lemma Series.commitValues_buffer : ∀ (vs : List ℚ) (s : Series),
    s.buffer.length + vs.length ≤ s.maxBarsBack →
    (s.commitValues vs).buffer = (vs.map (fun v => some v)).reverse ++ s.buffer ∧
      (s.commitValues vs).maxBarsBack = s.maxBarsBack := by
  intro vs
  induction vs with
  | nil => intro s _; simp [Series.commitValues]
  | cons v vs ih =>
    intro s h
    simp only [List.length_cons] at h
    have hstep := Series.commit_setCurrent s (some v) (by omega)
    have hfold : s.commitValues (v :: vs) =
        Series.commitValues { s with buffer := some v :: s.buffer, current := none } vs := by
      simp [Series.commitValues, hstep]
    rw [hfold]
    have hlen : (some v :: s.buffer).length + vs.length ≤ s.maxBarsBack := by
      simp only [List.length_cons]; omega
    obtain ⟨h1, h2⟩ := ih { s with buffer := some v :: s.buffer, current := none } hlen
    refine ⟨?_, by simpa using h2⟩
    rw [h1]
    simp

lemma Series.commitValues_current : ∀ (vs : List ℚ) (s : Series),
    s.current = none → (s.commitValues vs).current = none := by
  intro vs
  induction vs with
  | nil => intro s h; simpa [Series.commitValues] using h
  | cons v vs ih =>
    intro s _
    have : s.commitValues (v :: vs) = ((s.setCurrent (some v)).commit).commitValues vs := by
      simp [Series.commitValues]
    rw [this]
    exact ih _ (by simp [Series.setCurrent, Series.commit])

/-- C2.  Series round-trip: staging and committing `v₀ … v_{k−1}`, in
order, into a fresh series with `k ≤ max_bars_back` yields `len = k` and
newest-first indexing, `series[i] = v_{k−1−i}` for every `0 ≤ i < k`. -/
theorem series_round_trip (vs : List ℚ) (m : Nat) (hk : vs.length ≤ m) :
    ((Series.mkFresh m).commitValues vs).len = vs.length ∧
    ∀ i : Nat, ∀ hi : i < vs.length,
      ((Series.mkFresh m).commitValues vs).get (i : Int) =
        .ok (some (vs.get ⟨vs.length - 1 - i, by omega⟩)) := by
  obtain ⟨hbuf, -⟩ := Series.commitValues_buffer vs (Series.mkFresh m)
    (by simpa [Series.mkFresh] using hk)
  have hcur : ((Series.mkFresh m).commitValues vs).current = none :=
    Series.commitValues_current vs _ rfl
  have hb0 : (Series.mkFresh m).buffer = [] := rfl
  rw [hb0, List.append_nil] at hbuf
  constructor
  · simp [Series.len, hbuf]
  · intro i hi
    have hneg : ¬ ((i : Int) < 0) := by omega
    have hget : ((vs.map (fun v => some v)).reverse)[i]? =
        some (some (vs.get ⟨vs.length - 1 - i, by omega⟩)) := by
      rw [List.getElem?_reverse (by simpa using hi), List.length_map,
        List.getElem?_map, List.getElem?_eq_getElem (by omega)]
      simp [List.get_eq_getElem]
    simp only [Series.get, hcur, hneg, if_false, Int.toNat_natCast, hbuf, hget]

/-- Witness for C2 at `vs = [1, 2, 3]`, `max_bars_back = 5`. -/
theorem series_round_trip_witness :
    ([(1 : ℚ), 2, 3].length ≤ 5) ∧
      (((Series.mkFresh 5).commitValues [1, 2, 3]).len = [(1 : ℚ), 2, 3].length ∧
       ∀ i : Nat, ∀ hi : i < [(1 : ℚ), 2, 3].length,
         ((Series.mkFresh 5).commitValues [1, 2, 3]).get (i : Int) =
           .ok (some ([(1 : ℚ), 2, 3].get ⟨[(1 : ℚ), 2, 3].length - 1 - i, by omega⟩))) :=
  ⟨by decide, series_round_trip [1, 2, 3] 5 (by decide)⟩

/-! ## Commit atomicity of rollback (C5) -/

lemma List.mapIdx_map_buffer : ∀ (us : List Series) (f : Nat → Series → Series),
    (∀ j s, (f j s).buffer = s.buffer) →
    (us.mapIdx f).map Series.buffer = us.map Series.buffer := by
  intro us
  induction us with
  | nil => intro f _; simp
  | cons a l ih =>
    intro f hf
    simp only [List.mapIdx_cons, List.map_cons, hf]
    exact congrArg _ (ih _ (fun j s => hf (j + 1) s))

lemma BarContext.buffers_stage (ctx : BarContext) (i : Nat) (v : Val) :
    (ctx.stage i v).buffers = ctx.buffers := by
  match i with
  | 0 | 1 | 2 | 3 | 4 | 5 =>
    simp [BarContext.stage, BarContext.buffers, BarContext.registry, Series.setCurrent]
  | n + 6 =>
    simp only [BarContext.stage, BarContext.buffers, BarContext.registry, List.map_cons]
    have := List.mapIdx_map_buffer ctx.userSeries
      (fun j s => if j = n then s.setCurrent v else s)
      (by intro j s; by_cases h : j = n <;> simp [h, Series.setCurrent])
    rw [this]

lemma BarContext.buffers_applyStages (ctx : BarContext) (ops : List (Nat × Val)) :
    (ctx.applyStages ops).buffers = ctx.buffers := by
  induction ops generalizing ctx with
  | nil => rfl
  | cons op rest ih =>
    calc ((ctx.stage op.1 op.2).applyStages rest).buffers
        = (ctx.stage op.1 op.2).buffers := ih _
      _ = ctx.buffers := ctx.buffers_stage op.1 op.2

lemma BarContext.buffers_update (ctx : BarContext) (bar : OHLCV) (barIndex : Int) :
    (ctx.update bar barIndex).buffers = ctx.buffers := by
  simp [BarContext.update, BarContext.buffers, BarContext.registry, Series.setCurrent]

lemma BarContext.buffers_rollbackAll (ctx : BarContext) :
    ctx.rollbackAll.buffers = ctx.buffers := by
  simp only [BarContext.rollbackAll, BarContext.buffers, BarContext.mapRegistry,
    BarContext.registry, List.map_cons, List.map_map]
  rfl

/-- C5.  Commit atomicity of rollback: after staging a bar into the
context (`update`) and any sequence of further stagings by the strategy,
`rollback_all` leaves every registered series' committed buffer — and
hence its committed length — exactly as before the bar, so no committed
state reflects the rolled-back bar. -/
theorem rollback_atomicity (ctx : BarContext) (bar : OHLCV) (barIndex : Int)
    (ops : List (Nat × Val)) :
    (((ctx.update bar barIndex).applyStages ops).rollbackAll).buffers = ctx.buffers := by
  rw [BarContext.buffers_rollbackAll, BarContext.buffers_applyStages,
    BarContext.buffers_update]

/-! ## STOP order matching (C3) -/

/-- C3.  STOP matching: for a pending STOP order carrying a stop price, a
fill is produced iff the source's fill-price check succeeds, and the
pre-slippage fill price follows the spec table: LONG entry on
`high ≥ stop` at `max(open, stop)`; LONG exit/close on `low ≤ stop` at
`min(open, stop)`; SHORT entry on `low ≤ stop` at `min(open, stop)`;
SHORT exit/close on `high ≥ stop` at `max(open, stop)`. -/
theorem stop_matching (o : Order) (bar : OHLCV) (sp : ℚ)
    (cm : CommissionModel) (sm : SlippageModel)
    (htype : o.orderType = .stop) (hstop : o.stopPrice = some sp) :
    ((tryFill cm sm o bar).isSome ↔ (checkStop o bar).isSome) ∧
    checkStop o bar =
      (match o.side, o.action with
       | .long, .entry => if bar.high ≥ sp then some (max bar.open_ sp) else none
       | .short, .entry => if bar.low ≤ sp then some (min bar.open_ sp) else none
       | .long, _ => if bar.low ≤ sp then some (min bar.open_ sp) else none
       | .short, _ => if bar.high ≥ sp then some (max bar.open_ sp) else none) := by
  constructor
  · simp only [tryFill, htype]
    cases hc : checkStop o bar <;> simp [hc]
  · cases hside : o.side <;> cases haction : o.action <;>
      simp [checkStop, hstop, hside, haction]

/-- Witness for C3 at scenario S3: a LONG stop-loss (EXIT) at 95 against
the bar `(O,H,L,C) = (90,92,88,91)` fills, at `min(open, stop) = 90`. -/
theorem stop_matching_witness :
    ((tryFill .zero .zero
        { id := 1, action := .exit, side := .long, orderType := .stop,
          quantity := 10, stopPrice := some 95 }
        { timestamp := 0, open_ := 90, high := 92, low := 88, close := 91,
          volume := 0 }).isSome ↔
      (checkStop
        { id := 1, action := .exit, side := .long, orderType := .stop,
          quantity := 10, stopPrice := some 95 }
        { timestamp := 0, open_ := 90, high := 92, low := 88, close := 91,
          volume := 0 }).isSome) ∧
    checkStop
        { id := 1, action := .exit, side := .long, orderType := .stop,
          quantity := 10, stopPrice := some 95 }
        { timestamp := 0, open_ := 90, high := 92, low := 88, close := 91,
          volume := 0 } = some 90 := by
  have h := stop_matching
    { id := 1, action := .exit, side := .long, orderType := .stop,
      quantity := 10, stopPrice := some 95 }
    { timestamp := 0, open_ := 90, high := 92, low := 88, close := 91,
      volume := 0 } 95 .zero .zero rfl rfl
  refine ⟨h.1, ?_⟩
  rw [h.2]
  decide

/-! ## MACD single-bar signal line (C7) -/

/-- C7.  Whenever `macd` returns a triple, the signal line equals the
MACD line computed at the current bar (not an EMA of prior MACD values),
and the histogram is exactly 0. -/
theorem macd_signal_line (source : Series) (fastLength slowLength signalLength : Int)
    (t : ℚ × ℚ × ℚ) (h : macd source fastLength slowLength signalLength = .ok t) :
    t.2.1 = t.1 ∧ t.2.2 = 0 := by
  cases hf : ema source fastLength with
  | error e => simp [macd, hf, Bind.bind, Except.bind] at h
  | ok fe =>
    cases hs : ema source slowLength with
    | error e => simp [macd, hf, hs, Bind.bind, Except.bind] at h
    | ok se =>
      cases fe with
      | none => simp [macd, hf, hs, Bind.bind, Except.bind] at h
      | some f =>
        cases se with
        | none => simp [macd, hf, hs, Bind.bind, Except.bind] at h
        | some s =>
          simp only [macd, hf, hs, Bind.bind, Except.bind, pure, Except.pure,
            Except.ok.injEq] at h
          subst h
          exact ⟨rfl, by simp⟩

/-- Witness for C7 on a one-bar series (`EMA = 0` warmup for both legs:
`macd = ok (0, 0, 0)`). -/
theorem macd_signal_line_witness :
    ∃ t : ℚ × ℚ × ℚ,
      macd (Series.commitValues (Series.mkFresh 5000) [7]) 12 26 9 = .ok t ∧
        t.2.1 = t.1 ∧ t.2.2 = 0 :=
  ⟨(0, 0, 0), by with_unfolding_all rfl,
    macd_signal_line (Series.commitValues (Series.mkFresh 5000) [7]) 12 26 9
      (0, 0, 0) (by with_unfolding_all rfl)⟩

/-! ## No-op exit / close on a vacant tag (C10) -/

/-- C10.  When the portfolio has no open position under `tag`,
`Strategy.exit(tag)` (with its default `from_entry`) and
`Strategy.close_position(tag)` return without enqueuing any order: the
whole loop state — order queue, broker pending queue, portfolio — is
unchanged. -/
theorem exit_close_noop (st : LoopState) (oid : Nat) (tag : String)
    (qty limit stop : Option ℚ)
    (h : st.portfolio.getPosition tag = none) :
    Strategy.exitOrder st oid tag "" qty limit stop = st ∧
    Strategy.closePosition st oid tag = st := by
  constructor
  · simp [Strategy.exitOrder, h]
  · simp [Strategy.closePosition, h]

/-- Witness for C10 on a freshly initialized loop (no open positions). -/
theorem exit_close_noop_witness :
    Strategy.exitOrder (LoopState.mkFresh 10000 .zero .zero 10) 1 "t" ""
        none none none = LoopState.mkFresh 10000 .zero .zero 10 ∧
    Strategy.closePosition (LoopState.mkFresh 10000 .zero .zero 10) 1 "t" =
      LoopState.mkFresh 10000 .zero .zero 10 :=
  exit_close_noop (LoopState.mkFresh 10000 .zero .zero 10) 1 "t" none none none rfl

/-! ## Auto-sized entry quantity (C8) -/

/-- The reachable loop state used to refute C8: close staged at 10 and a
(negative) cash balance of −100 after earlier overdrawing fills. -/
def negCashState : LoopState :=
  let base := LoopState.mkFresh 10000 .zero .zero 10
  { base with
    context := base.context.stage 3 (some 10)
    portfolio := { base.portfolio with cash := -100 } }

/-- Counterexample to C8 as stated: with cash −100 and close 10, the
auto-sized entry quantity is `−100/10·99/100 = −99/10`, which is negative
— the code applies no floor at zero. -/
theorem entry_autosize_counterexample :
    (∃ st', Strategy.entry negCashState 1 "t" .long none none none = .ok st' ∧
      st'.orderQueue.map (fun r => r.1.quantity) = [(-99 : ℚ) / 10]) ∧
    ((-99 : ℚ) / 10 < 0) := by
  refine ⟨⟨{ negCashState with orderQueue :=
      [({ id := 1, action := .entry, side := .long, orderType := .market,
          quantity := (-99 : ℚ) / 10, tag := "t" }, OrderAction.entry)] }, ?_, ?_⟩, ?_⟩
  · with_unfolding_all rfl
  · with_unfolding_all rfl
  · norm_num

/-- C8 (amended).  With `qty` absent, the submitted entry order's
quantity is `cash / close · 99 / 100` whenever the current close is
positive — with no floor at zero, so it is negative exactly when cash is
negative — and 0 when the close is not positive. -/
theorem entry_autosize (st : LoopState) (oid : Nat) (tag : String) (side : Side)
    (limit stop : Option ℚ) (cp : ℚ)
    (hclose : st.context.closeS.currentVal = .ok (some cp)) :
    Strategy.entry st oid tag side none limit stop =
      .ok { st with orderQueue := st.orderQueue ++
        [({ id := oid, action := .entry, side := side,
            orderType := orderTypeOf limit stop,
            quantity := if cp > 0 then st.portfolio.cash / cp * 99 / 100 else 0,
            limitPrice := limit, stopPrice := stop, tag := tag },
          OrderAction.entry)] } := by
  by_cases hcp : cp > 0 <;>
    simp [Strategy.entry, hclose, hcp, Bind.bind, Except.bind, pure, Except.pure]

/-- Witness for C8 (amended) on a state with cash 10000 and close 100:
quantity `10000/100·99/100 = 99`. -/
theorem entry_autosize_witness :
    Strategy.entry
        { LoopState.mkFresh 10000 .zero .zero 10 with
          context := (BarContext.mkFresh 10).stage 3 (some 100) }
        1 "t" .long none none none =
      .ok { { LoopState.mkFresh 10000 .zero .zero 10 with
              context := (BarContext.mkFresh 10).stage 3 (some 100) } with
            orderQueue :=
              [({ id := 1, action := .entry, side := .long,
                  orderType := orderTypeOf none none,
                  quantity := if (100 : ℚ) > 0 then (10000 : ℚ) / 100 * 99 / 100 else 0,
                  limitPrice := none, stopPrice := none, tag := "t" },
                OrderAction.entry)] } :=
  entry_autosize
    { LoopState.mkFresh 10000 .zero .zero 10 with
      context := (BarContext.mkFresh 10).stage 3 (some 100) }
    1 "t" .long none none 100 rfl

/-! ## Warmup stability (C6) -/

lemma smaLoop_exhausts (s : Series) :
    ∀ (k : Nat) (i : Int) (total : ℚ), 1 ≤ k → 0 ≤ i → s.current = none →
      (s.len : Int) < i + k → smaLoop s i k total = none := by
  intro k
  induction k with
  | zero => intro i total h1 _ _ _; omega
  | succ n ih =>
    intro i total _ h0 hcur hlen
    cases hget : s.get i with
    | error e => simp [smaLoop, hget]
    | ok v =>
      have hlt : i.toNat < s.len := by
        simp only [Series.get, hcur] at hget
        rw [if_neg (by omega)] at hget
        cases hbuf : s.buffer[i.toNat]? with
        | none => rw [hbuf] at hget; cases hget
        | some w =>
          obtain ⟨hw, -⟩ := List.getElem?_eq_some.mp hbuf
          exact hw
      have hn : 1 ≤ n := by omega
      simp only [smaLoop, hget]
      exact ih (i + 1) (total + nz v) hn (by omega) hcur (by omega)

/-- Counterexample to C6 as stated: a completely fresh series has 0 bars
of history, fewer than the requested length 1, yet `sma` raises
`SeriesIndexError` (via the unguarded `source.current` access) instead of
returning the warmup sentinel 0. -/
theorem warmup_counterexample :
    (Series.mkFresh 5000).len = 0 ∧
    (Series.mkFresh 5000).current = none ∧
    sma (Series.mkFresh 5000) 1 = .error Err.seriesIndexError ∧
    sma (Series.mkFresh 5000) 1 ≠ .ok 0 := by
  refine ⟨rfl, rfl, by with_unfolding_all rfl, ?_⟩
  intro h
  rw [show sma (Series.mkFresh 5000) 1 = .error Err.seriesIndexError from
    by with_unfolding_all rfl] at h
  cases h

/-- C6 (amended).  For every series whose history — committed bars plus
the staged current value, if any — is shorter than the requested length,
`sma` returns the warmup sentinel 0 and `rsi` returns 50 without raising,
provided the series is not completely empty (it has a staged current or
at least one committed bar); on a completely empty series `sma` with
length 1 raises `SeriesIndexError`. -/
theorem warmup_stability (s : Series) (L : Int)
    (hshort : (s.len : Int) + (if s.current.isSome then 1 else 0) < L)
    (hne : s.current.isSome ∨ s.buffer ≠ []) :
    sma s L = .ok 0 ∧ rsi s L = .ok 50 := by
  have hlen0 : (s.len : Int) < L := by
    by_cases h : s.current.isSome <;> simp [h] at hshort <;> omega
  refine ⟨?_, by simp [rsi, if_pos hlen0]⟩
  by_cases hc : s.current.isSome
  · rw [if_pos hc] at hshort
    simp [sma, if_pos (show (s.len : Int) < L - 1 by omega)]
  · have hcur : s.current = none := Option.not_isSome_iff_eq_none.mp hc
    have hbuf : s.buffer ≠ [] := by
      rcases hne with h | h
      · exact absurd h hc
      · exact h
    have hlen1 : 1 ≤ s.len := by
      cases hb : s.buffer with
      | nil => exact absurd hb hbuf
      | cons x xs => simp [Series.len, hb]
    by_cases hg : (s.len : Int) < L - 1
    · simp [sma, if_pos hg]
    · have hL : L = (s.len : Int) + 1 := by omega
      have hcv : s.currentVal = .ok (s.buffer.headD none) := by
        simp only [Series.currentVal, hcur]
        cases hb : s.buffer with
        | nil => exact absurd hb hbuf
        | cons x xs => rfl
      rw [sma, if_neg hg, hcv]
      have hiters : (L - 1).toNat = s.len := by omega
      cases hhead : s.buffer.headD none with
      | none =>
        simp only [hiters]
        rw [if_neg (by omega)]
      | some t0 =>
        simp only [hiters]
        rw [smaLoop_exhausts s s.len 1 t0 (by omega) (by omega) hcur (by omega)]

/-- Witness for C6 (amended) on a series with one staged value and length
10: `sma = 0`, `rsi = 50`. -/
theorem warmup_stability_witness :
    sma ((Series.mkFresh 5000).setCurrent (some 100)) 10 = .ok 0 ∧
    rsi ((Series.mkFresh 5000).setCurrent (some 100)) 10 = .ok 50 :=
  warmup_stability ((Series.mkFresh 5000).setCurrent (some 100)) 10
    (by simp [Series.mkFresh, Series.setCurrent, Series.len])
    (Or.inl (by simp [Series.mkFresh, Series.setCurrent]))

/-! ## Failed-trial sentinel in parallel execution (C9) -/

/-- A concrete trial function whose trial 0 raises and whose other trials
succeed with objective equal to the trial index. -/
def failingTrialFn : Unit → Nat → Except Unit (TrialResult Unit) := fun _ i =>
  if i = 0 then .error ()
  else .ok { trialIndex := i, parameters := (), objectiveValue := .val 1 }

/-- Counterexample to C9 as stated: the failed trial 0 is recorded with
objective `Decimal("-999")` — a finite constant independent of the
objective direction — not `−∞` (maximize) or `+∞` (minimize). -/
theorem parallel_sentinel_counterexample :
    (runParallelTrials failingTrialFn [(), ()] [0, 1]).map
        (fun r => (r.trialIndex, r.objectiveValue)) =
      [(0, Dec.val (-999)), (1, Dec.val 1)] ∧
    Dec.val (-999) ≠ Dec.negInf ∧ Dec.val (-999) ≠ Dec.posInf := by
  have hres : runParallelTrials failingTrialFn [(), ()] [0, 1] =
      List.mergeSort
        [{ trialIndex := 0, parameters := (), objectiveValue := Dec.val (-999) },
         { trialIndex := 1, parameters := (), objectiveValue := Dec.val 1 }]
        (fun a b => decide (a.trialIndex ≤ b.trialIndex)) := by
    with_unfolding_all rfl
  rw [hres, List.mergeSort_of_sorted (by simp)]
  refine ⟨rfl, by simp, by simp⟩

/-- C9 (amended).  In parallel trial execution, whatever the completion
order of the pool's futures, the returned results are sorted by
`trial_index`, and every trial whose execution fails is still recorded at
its trial index with its parameter set and the sentinel objective value
`Decimal("-999")` — a constant that does not depend on whether the
objective is maximized or minimized. -/
theorem parallel_failed_sentinel {π : Type} (trialFn : π → Nat → Except Unit (TrialResult π))
    (paramSets : List π) (order : List Nat)
    (hperm : List.Perm order (List.range paramSets.length)) :
    List.Pairwise (fun a b => a.trialIndex ≤ b.trialIndex)
      (runParallelTrials trialFn paramSets order) ∧
    ∀ i : Nat, ∀ hi : i < paramSets.length,
      trialFn (paramSets.get ⟨i, hi⟩) i = .error () →
      ∃ r ∈ runParallelTrials trialFn paramSets order,
        r.trialIndex = i ∧ r.parameters = paramSets.get ⟨i, hi⟩ ∧
        r.objectiveValue = Dec.val (-999) := by
  constructor
  · have hs := @List.sorted_mergeSort (TrialResult π)
      (fun a b : TrialResult π => decide (a.trialIndex ≤ b.trialIndex))
      (by intro a b c hab hbc
          simp only [decide_eq_true_eq] at *
          omega)
      (by intro a b
          simp only [Bool.or_eq_true, decide_eq_true_eq]
          omega)
      (order.filterMap
        (fun idx => (paramSets.get? idx).map
          (fun params =>
            match trialFn params idx with
            | .ok r => r
            | .error _ =>
              { trialIndex := idx, parameters := params,
                objectiveValue := Dec.val (-999) })))
    exact (hs.imp (fun h => of_decide_eq_true h))
  · intro i hi hfail
    have hmemOrder : i ∈ order := hperm.mem_iff.mpr (List.mem_range.mpr hi)
    refine ⟨{ trialIndex := i, parameters := paramSets.get ⟨i, hi⟩,
              objectiveValue := Dec.val (-999) }, ?_, rfl, rfl, rfl⟩
    rw [runParallelTrials, List.mem_mergeSort]
    refine List.mem_filterMap.mpr ⟨i, hmemOrder, ?_⟩
    rw [List.get?_eq_get hi]
    have hfail' : trialFn paramSets[i] i = Except.error () := hfail
    simp [hfail']

/-- Witness for C9 (amended) with two trials completing in order `[0, 1]`
and trial 0 failing. -/
theorem parallel_failed_sentinel_witness :
    List.Pairwise (fun a b => a.trialIndex ≤ b.trialIndex)
      (runParallelTrials failingTrialFn [(), ()] [0, 1]) ∧
    ∃ r ∈ runParallelTrials failingTrialFn [(), ()] [0, 1],
      r.trialIndex = 0 ∧ r.parameters = ([(), ()] : List Unit).get ⟨0, by decide⟩ ∧
      r.objectiveValue = Dec.val (-999) := by
  obtain ⟨h1, h2⟩ := parallel_failed_sentinel failingTrialFn [(), ()] [0, 1] (by decide)
  exact ⟨h1, h2 0 (by decide) rfl⟩

/-! ## No look-ahead (C1) -/

lemma tryFill_timestamp (cm : CommissionModel) (sm : SlippageModel)
    (o : Order) (bar : OHLCV) (f : Fill)
    (h : tryFill cm sm o bar = some f) : f.timestamp = bar.timestamp := by
  cases htype : o.orderType
  case market =>
    simp only [tryFill, htype] at h
    obtain ⟨-, rfl⟩ := Option.some.injEq .. ▸ h
    rfl
  case limit =>
    simp only [tryFill, htype] at h
    cases hp : checkLimit o bar
    · rw [hp] at h; cases h
    · rw [hp] at h
      obtain rfl := (Option.some.injEq ..).mp h
      rfl
  case stop =>
    simp only [tryFill, htype] at h
    cases hp : checkStop o bar
    · rw [hp] at h; cases h
    · rw [hp] at h
      obtain rfl := (Option.some.injEq ..).mp h
      rfl
  case stopLimit =>
    simp only [tryFill, htype] at h
    cases hp : checkStopLimit o bar
    · rw [hp] at h; cases h
    · rw [hp] at h
      obtain rfl := (Option.some.injEq ..).mp h
      rfl

lemma processBar_fills_aux (cm : CommissionModel) (sm : SlippageModel) (bar : OHLCV) :
    ∀ (orders : List Order) (accF : List (Order × Fill)) (accR : List Order),
      ∀ p ∈ (orders.foldl
          (fun (acc : List (Order × Fill) × List Order) order =>
            match tryFill cm sm order bar with
            | some fill =>
              let filled := { order with
                status := OrderStatus.filled
                filledAt := some bar.timestamp
                fillPrice := some fill.price
                commission := fill.commission
                slippage := fill.slippage }
              (acc.1 ++ [(filled, fill)], acc.2)
            | none => (acc.1, acc.2 ++ [order]))
          (accF, accR)).1,
        p ∈ accF ∨
          (p.2.timestamp = bar.timestamp ∧
            ∃ o ∈ orders, p.1.createdBar = o.createdBar) := by
  intro orders
  induction orders with
  | nil => intro accF accR p hp; exact Or.inl hp
  | cons o os ih =>
    intro accF accR p hp
    simp only [List.foldl_cons] at hp
    cases hfill : tryFill cm sm o bar with
    | none =>
      rw [hfill] at hp
      rcases ih accF (accR ++ [o]) p hp with h | ⟨hts, o', ho', hcb⟩
      · exact Or.inl h
      · exact Or.inr ⟨hts, o', List.mem_cons_of_mem _ ho', hcb⟩
    | some fill =>
      rw [hfill] at hp
      rcases ih (accF ++ [({ o with
          status := OrderStatus.filled
          filledAt := some bar.timestamp
          fillPrice := some fill.price
          commission := fill.commission
          slippage := fill.slippage }, fill)]) accR p hp with h | ⟨hts, o', ho', hcb⟩
      · rcases List.mem_append.mp h with h | h
        · exact Or.inl h
        · rcases List.mem_singleton.mp h with rfl
          refine Or.inr ⟨tryFill_timestamp cm sm o bar fill hfill,
            o, List.mem_cons_self .., rfl⟩
      · exact Or.inr ⟨hts, o', List.mem_cons_of_mem _ ho', hcb⟩

lemma processBar_fills (b : SimulatedBroker) (bar : OHLCV) :
    ∀ p ∈ (b.processBar bar).1,
      p.2.timestamp = bar.timestamp ∧
        ∃ o ∈ b.pendingOrders, p.1.createdBar = o.createdBar := by
  intro p hp
  have := processBar_fills_aux b.commissionModel b.slippageModel bar
    b.pendingOrders [] [] p hp
  rcases this with h | h
  · cases h
  · exact h

lemma submit_pending_aux (bar : OHLCV) (barIndex : Nat) :
    ∀ (reqs : List (Order × OrderAction)) (bk : SimulatedBroker)
      (am : List (Nat × OrderAction)),
      ∀ o ∈ ((reqs.foldl
          (fun (acc : SimulatedBroker × List (Nat × OrderAction)) r =>
            let order := { r.1 with createdBar := (barIndex : Int),
                                    createdAt := some bar.timestamp }
            (acc.1.submitOrder order, dictInsert acc.2 order.id r.2))
          (bk, am)).1).pendingOrders,
        o ∈ bk.pendingOrders ∨ o.createdBar = (barIndex : Int) := by
  intro reqs
  induction reqs with
  | nil => intro bk am o ho; exact Or.inl ho
  | cons r rs ih =>
    intro bk am o ho
    simp only [List.foldl_cons] at ho
    rcases ih _ _ o ho with h | h
    · simp only [SimulatedBroker.submitOrder] at h
      rcases List.mem_append.mp h with h | h
      · exact Or.inl h
      · rcases List.mem_singleton.mp h with rfl
        exact Or.inr rfl
    · exact Or.inr h

lemma processBarStep_inv {σ : Type} (strat : StrategySpec σ) (bar : OHLCV)
    (barIndex : Nat) (st : LoopState × σ)
    (hinv : ∀ o ∈ st.1.broker.pendingOrders, o.createdBar < (barIndex : Int)) :
    (∀ o ∈ (processBarStep strat bar barIndex st).1.1.broker.pendingOrders,
        o.createdBar < (barIndex : Int) + 1) ∧
    (∀ p ∈ (processBarStep strat bar barIndex st).2,
        p.2.timestamp = bar.timestamp ∧ p.1.createdBar < (barIndex : Int)) := by
  obtain ⟨ls, ss⟩ := st
  constructor
  · intro o ho
    simp only [processBarStep] at ho
    rcases submit_pending_aux bar barIndex _ _ _ o ho with h | h
    · -- o survived matching: it was pending before this bar
      have hsub : o ∈ ls.broker.pendingOrders := by
        simp only [SimulatedBroker.processBar] at h
        have aux : ∀ (orders : List Order) (accF : List (Order × Fill))
            (accR : List Order),
            o ∈ (orders.foldl
              (fun (acc : List (Order × Fill) × List Order) order =>
                match tryFill ls.broker.commissionModel ls.broker.slippageModel
                    order bar with
                | some fill =>
                  let filled := { order with
                    status := OrderStatus.filled
                    filledAt := some bar.timestamp
                    fillPrice := some fill.price
                    commission := fill.commission
                    slippage := fill.slippage }
                  (acc.1 ++ [(filled, fill)], acc.2)
                | none => (acc.1, acc.2 ++ [order])) (accF, accR)).2 →
            o ∈ accR ∨ o ∈ orders := by
          intro orders
          induction orders with
          | nil => intro accF accR h2; exact Or.inl h2
          | cons x xs ih2 =>
            intro accF accR h2
            simp only [List.foldl_cons] at h2
            cases hfill : tryFill ls.broker.commissionModel
                ls.broker.slippageModel x bar with
            | none =>
              rw [hfill] at h2
              rcases ih2 _ _ h2 with h3 | h3
              · rcases List.mem_append.mp h3 with h4 | h4
                · exact Or.inl h4
                · rcases List.mem_singleton.mp h4 with rfl
                  exact Or.inr (List.mem_cons_self ..)
              · exact Or.inr (List.mem_cons_of_mem _ h3)
            | some fill =>
              rw [hfill] at h2
              rcases ih2 _ _ h2 with h3 | h3
              · exact Or.inl h3
              · exact Or.inr (List.mem_cons_of_mem _ h3)
        rcases aux ls.broker.pendingOrders [] [] h with h2 | h2
        · cases h2
        · exact h2
      have := hinv o hsub
      omega
    · omega
  · intro p hp
    simp only [processBarStep] at hp
    obtain ⟨hts, o', ho', hcb⟩ := processBar_fills ls.broker bar p hp
    exact ⟨hts, hcb ▸ hinv o' ho'⟩

/-- The no-look-ahead property of one trace entry: the fill's bar index is
strictly later than the bar on which the order was created, and the fill
timestamp is that later bar's timestamp. -/
def fillAfterCreation (bars : List OHLCV) (e : Nat × Order × Fill) : Prop :=
  e.2.1.createdBar + 1 ≤ (e.1 : Int) ∧
  ∃ h : e.1 < bars.length, e.2.2.timestamp = (bars.get ⟨e.1, h⟩).timestamp

lemma runBarsFrom_spec {σ : Type} (strat : StrategySpec σ) (fullBars : List OHLCV) :
    ∀ (rest : List OHLCV) (idx : Nat) (st : LoopState × σ)
      (trace : List (Nat × Order × Fill)),
      rest = fullBars.drop idx →
      (∀ o ∈ st.1.broker.pendingOrders, o.createdBar < (idx : Int)) →
      (∀ e ∈ trace, fillAfterCreation fullBars e) →
      ∀ e ∈ (runBarsFrom strat idx st trace rest).2, fillAfterCreation fullBars e := by
  intro rest
  induction rest with
  | nil => intro idx st trace _ _ htrace e he; exact htrace e he
  | cons bar rest2 ih =>
    intro idx st trace hrest hinv htrace e he
    have hidx : idx < fullBars.length := by
      by_contra hge
      rw [List.drop_eq_nil_of_le (by omega)] at hrest
      cases hrest
    have hcd := List.getElem_cons_drop fullBars idx hidx
    rw [← hrest] at hcd
    obtain ⟨hbar1, hbar2⟩ := List.cons_eq_cons.mp hcd
    obtain ⟨hinv', hfills⟩ := processBarStep_inv strat bar idx st hinv
    simp only [runBarsFrom] at he
    refine ih (idx + 1) _ _ hbar2.symm (by exact_mod_cast hinv') ?_ e he
    intro e2 he2
    rcases List.mem_append.mp he2 with h | h
    · exact htrace e2 h
    · obtain ⟨of, hof, rfl⟩ := List.mem_map.mp h
      obtain ⟨hts, hcb⟩ := hfills of hof
      exact ⟨by simpa using hcb, hidx,
        by rw [List.get_eq_getElem, hbar1]; exact hts⟩

lemma run_trace_eq {σ : Type} (strat : StrategySpec σ) (bars : List OHLCV)
    (st : LoopState × σ) :
    (run strat bars st).2 = (runBars strat bars st).2 := by
  rw [run]
  cases bars.getLast? <;> simp

/-- C1.  No look-ahead: every fill produced by a backtest run was matched
on a bar with index at least `created_bar + 1`, and its `filled_at`
timestamp is that later bar's timestamp.  In particular the fills applied
before `on_bar` at any bar never come from orders submitted on that same
bar. -/
theorem no_lookahead {σ : Type} (strat : StrategySpec σ) (bars : List OHLCV)
    (cap : ℚ) (cm : CommissionModel) (sm : SlippageModel) (mbb : Nat) (s0 : σ)
    (e : Nat × Order × Fill)
    (hmem : e ∈ (run strat bars (LoopState.mkFresh cap cm sm mbb, s0)).2) :
    e.2.1.createdBar + 1 ≤ (e.1 : Int) ∧
    ∃ h : e.1 < bars.length,
      e.2.2.timestamp = (bars.get ⟨e.1, h⟩).timestamp := by
  rw [run_trace_eq] at hmem
  exact runBarsFrom_spec strat bars bars 0 _ [] rfl
    (by intro o ho; cases ho) (by intro x hx; cases hx) e hmem

/-! Concrete fixture (§8.2 scenario S1): three bars with opens
100/105/108, a strategy that submits one MARKET LONG entry of qty 10 on
bar 0 and nothing afterwards, zero commission and slippage.  The single
fill happens on bar 1 at the open 105. -/

def entryOrderS1 : Order :=
  { id := 7, action := .entry, side := .long, orderType := .market,
    quantity := 10, tag := "test" }

def stratS1 : StrategySpec Bool :=
  { onBar := fun fired _ _ =>
      if fired then (true, [], [])
      else (true, [], [(entryOrderS1, OrderAction.entry)]) }

def barsS1 : List OHLCV :=
  [{ timestamp := 100, open_ := 100, high := 101, low := 99, close := 100, volume := 1 },
   { timestamp := 200, open_ := 105, high := 106, low := 104, close := 105, volume := 1 },
   { timestamp := 300, open_ := 108, high := 109, low := 107, close := 108, volume := 1 }]

def orderS1filled : Order :=
  { id := 7, action := .entry, side := .long, orderType := .market,
    quantity := 10, status := .filled, tag := "test", createdBar := 0,
    createdAt := some 100, filledAt := some 200, fillPrice := some 105 }

def fillS1 : Fill :=
  { orderId := 7, side := .long, price := 105, quantity := 10,
    commission := 0, slippage := 0, timestamp := 200, tag := "test" }

/-- Witness for C1 on scenario S1: the order created at bar 0 fills at
bar index 1, at bar 1's timestamp. -/
theorem no_lookahead_witness :
    ((1, orderS1filled, fillS1) : Nat × Order × Fill).2.1.createdBar + 1 ≤
      (((1, orderS1filled, fillS1) : Nat × Order × Fill).1 : Int) ∧
    ∃ h : ((1, orderS1filled, fillS1) : Nat × Order × Fill).1 < barsS1.length,
      ((1, orderS1filled, fillS1) : Nat × Order × Fill).2.2.timestamp =
        (barsS1.get ⟨((1, orderS1filled, fillS1) : Nat × Order × Fill).1, h⟩).timestamp :=
  no_lookahead stratS1 barsS1 10000 .zero .zero 100 false (1, orderS1filled, fillS1)
    (by rw [show (run stratS1 barsS1 (LoopState.mkFresh 10000 .zero .zero 100, false)).2 =
          [(1, orderS1filled, fillS1)] from by with_unfolding_all rfl]
        exact List.mem_singleton_self _)

/-! ## End-of-run close (C4) -/

lemma dictErase_of_not_found {κ α : Type} [DecidableEq κ]
    (l : List (κ × α)) (k : κ) (h : dictFind l k = none) : dictErase l k = l := by
  have hfind : l.find? (fun e => decide (e.1 = k)) = none := by
    cases hf : l.find? (fun e => decide (e.1 = k)) with
    | none => rfl
    | some e => rw [dictFind, hf] at h; cases h
  refine List.filter_eq_self.mpr ?_
  intro e he
  have := List.find?_eq_none.mp hfind e he
  simpa using this

lemma forceClose_positions (p : Portfolio) (tag : String) (price : ℚ)
    (ts barIndex : Int) (comm : ℚ) (etag : String) :
    (p.forceClose tag price ts barIndex comm etag).positions =
      dictErase p.positions tag := by
  rw [Portfolio.forceClose]
  cases h : dictFind p.positions tag with
  | none => exact (dictErase_of_not_found p.positions tag h).symm
  | some position => rfl

lemma forceClose_closed (p : Portfolio) (tag : String) (price : ℚ)
    (ts barIndex : Int) (comm : ℚ) (etag : String) :
    ∃ u, (p.forceClose tag price ts barIndex comm etag).closedPositions =
        p.closedPositions ++ u ∧
      ∀ x ∈ u, x.exitPrice = some price ∧ x.commissionExit = comm ∧
        x.exitTag = etag ∧ x.exitBar = some barIndex := by
  rw [Portfolio.forceClose]
  cases h : dictFind p.positions tag with
  | none => exact ⟨[], by simp, by intro x hx; cases hx⟩
  | some position =>
    refine ⟨[position.close price ts barIndex etag comm], rfl, ?_⟩
    intro x hx
    rcases List.mem_singleton.mp hx with rfl
    exact ⟨rfl, rfl, rfl, rfl⟩

lemma closeAll_foldl_spec (price : ℚ) (ts barIndex : Int) :
    ∀ (tags : List String) (q : Portfolio),
      ((tags.foldl
          (fun acc tag => acc.forceClose tag price ts barIndex 0 "backtest_end")
          q).positions =
        q.positions.filter (fun e => decide (¬ e.1 ∈ tags))) ∧
      ∃ u, (tags.foldl
            (fun acc tag => acc.forceClose tag price ts barIndex 0 "backtest_end")
            q).closedPositions = q.closedPositions ++ u ∧
        ∀ x ∈ u, x.exitPrice = some price ∧ x.commissionExit = 0 ∧
          x.exitTag = "backtest_end" ∧ x.exitBar = some barIndex := by
  intro tags
  induction tags with
  | nil =>
    intro q
    refine ⟨?_, [], by simp, by intro x hx; cases hx⟩
    rw [List.foldl_nil]
    symm
    refine List.filter_eq_self.mpr ?_
    intro e _
    simp
  | cons t ts2 ih =>
    intro q
    rw [List.foldl_cons]
    obtain ⟨hpos, u2, hclosed, hu2⟩ := ih (q.forceClose t price ts barIndex 0 "backtest_end")
    constructor
    · rw [hpos, forceClose_positions, dictErase, List.filter_filter]
      refine List.filter_congr ?_
      intro e _
      simp only [List.mem_cons, decide_not]
      cases heq : decide (e.1 = t) <;>
        simp_all [decide_eq_true_eq]
    · obtain ⟨u1, hc1, hu1⟩ := forceClose_closed q t price ts barIndex 0 "backtest_end"
      refine ⟨u1 ++ u2, by rw [hclosed, hc1, List.append_assoc], ?_⟩
      intro x hx
      rcases List.mem_append.mp hx with h | h
      · exact hu1 x h
      · exact hu2 x h

lemma closeAllPositions_spec (p : Portfolio) (price : ℚ) (ts barIndex : Int) :
    (p.closeAllPositions price ts barIndex).positions = [] ∧
    ∃ u, (p.closeAllPositions price ts barIndex).closedPositions =
        p.closedPositions ++ u ∧
      ∀ x ∈ u, x.exitPrice = some price ∧ x.commissionExit = 0 ∧
        x.exitTag = "backtest_end" ∧ x.exitBar = some barIndex := by
  obtain ⟨hpos, hclosed⟩ :=
    closeAll_foldl_spec price ts barIndex (p.positions.map Prod.fst) p
  refine ⟨?_, hclosed⟩
  rw [Portfolio.closeAllPositions, hpos]
  refine List.filter_eq_nil_iff.mpr ?_
  intro e he
  have hm : e.1 ∈ p.positions.map Prod.fst := List.mem_map.mpr ⟨e, he, rfl⟩
  simp [hm]

/-- C4.  End-of-run close: after `EventLoop.run` on a non-empty bar
source, the portfolio has no open positions, and every position closed by
the final `close_all_positions` step (the positions still open after the
bar loop) is closed at the final bar's close price with zero exit
commission, exit tag `"backtest_end"`, and exit bar equal to the last bar
index. -/
theorem end_of_run_close {σ : Type} (strat : StrategySpec σ) (bars : List OHLCV)
    (cap : ℚ) (cm : CommissionModel) (sm : SlippageModel) (mbb : Nat) (s0 : σ)
    (lastBar : OHLCV) (hlast : bars.getLast? = some lastBar) :
    (run strat bars (LoopState.mkFresh cap cm sm mbb, s0)).1.1.portfolio.positions
        = [] ∧
    ∃ u, (run strat bars (LoopState.mkFresh cap cm sm mbb, s0)).1.1.portfolio.closedPositions
          = (runBars strat bars
              (LoopState.mkFresh cap cm sm mbb, s0)).1.1.portfolio.closedPositions ++ u ∧
      ∀ x ∈ u, x.exitPrice = some lastBar.close ∧ x.commissionExit = 0 ∧
        x.exitTag = "backtest_end" ∧ x.exitBar = some ((bars.length : Int) - 1) := by
  have hrun : (run strat bars (LoopState.mkFresh cap cm sm mbb, s0)).1.1.portfolio =
      Portfolio.closeAllPositions
        (runBars strat bars (LoopState.mkFresh cap cm sm mbb, s0)).1.1.portfolio
        lastBar.close lastBar.timestamp ((bars.length : Int) - 1) := by
    rw [run, hlast]
  rw [hrun]
  exact closeAllPositions_spec _ _ _ _

/-- The last bar of the S1 fixture. -/
def lastBarS1 : OHLCV :=
  { timestamp := 300, open_ := 108, high := 109, low := 107, close := 108,
    volume := 1 }

/-- Witness for C4 on scenario S1: the LONG position opened on bar 1 and
never exited is force-closed by the run with the `"backtest_end"`
fields. -/
theorem end_of_run_close_witness :
    (run stratS1 barsS1 (LoopState.mkFresh 10000 .zero .zero 100, false)).1.1.portfolio.positions
        = [] ∧
    ∃ u, (run stratS1 barsS1
            (LoopState.mkFresh 10000 .zero .zero 100, false)).1.1.portfolio.closedPositions
          = (runBars stratS1 barsS1
              (LoopState.mkFresh 10000 .zero .zero 100,
                false)).1.1.portfolio.closedPositions ++ u ∧
      ∀ x ∈ u, x.exitPrice = some lastBarS1.close ∧
        x.commissionExit = 0 ∧ x.exitTag = "backtest_end" ∧
        x.exitBar = some ((barsS1.length : Int) - 1) :=
  end_of_run_close stratS1 barsS1 10000 .zero .zero 100 false lastBarS1 rfl

end FinSaaS
